import Mathlib

/-!
# Verification of Scylla's write/flush control core (`database.cc`)

Shallow embedding of the routines of `database.cc` that the specification
talks about, together with theorems settling the spec's claims:

* the cell merge comparator `compare_atomic_cell_for_merge`;
* the backlog controller's piecewise-linear `adjust` / `backlog_of_shares`;
* the durability pipeline (`apply_with_commitlog`, `do_apply`,
  `apply_counter_update`, `apply_streaming_mutation`, `apply_in_memory`,
  `maybe_handle_reorder`), with collaborator outcomes (commitlog append,
  memory admission, the memtable's own apply) passed in explicitly and a
  trace of the pipeline events produced;
* flush-request coalescing in `memtable_list::request_flush` and the flush
  coordinator's victim selection in `dirty_memory_manager::flush_when_needed`;
* the table directory `database::add_column_family`.

Machine integers are modelled as `Int`/`Nat` with explicit reduction
modulo `2 ^ 64` where the code casts; `float` arithmetic of the backlog
controller is modelled exactly over `ℚ`; failing code returns `Except`.
-/

namespace Scylla

/-- Error taxonomy of the pipeline (exception types thrown by the code). -/
inductive Err where
  | invalid_argument
  | no_such_column_family
  | stale_schema
  | mutation_reordered_with_truncate
  | timed_out
  | other (code : Nat)
deriving DecidableEq, Repr

/-! ## Cell merge comparator (`compare_atomic_cell_for_merge`) -/

/-- The fields of an `atomic_cell_view` that the comparator reads:
`timestamp()`, `is_live()`, `value()` (a byte string),
`is_live_and_has_ttl()`, `expiry()` (a time point) and
`deletion_time().time_since_epoch().count()` (a signed 64-bit count that
the comparator casts to `uint64_t`). -/
structure atomic_cell where
  timestamp : Int
  is_live : Bool
  value : List Nat
  is_live_and_has_ttl : Bool
  expiry : Int
  deletion_time : Int
deriving DecidableEq, Repr

/-- The cast `(uint64_t) x` for a signed 64-bit count: reduction modulo `2 ^ 64`. -/
def toUInt64 (x : Int) : Int := x % (2 ^ 64)

/-- Modelled from the spec: `compare_unsigned` on byte strings (a
collaborator of `database.cc`) compares the two byte strings unsigned
lexicographically — bytewise on the common prefix, the shorter string
losing on a strict prefix — returning a negative, zero or positive value.
Only the sign is relevant to the comparator. -/
def compare_unsigned : List Nat → List Nat → Int
  | [], [] => 0
  | [], _ :: _ => -1
  | _ :: _, [] => 1
  | a :: as, b :: bs =>
    if a < b then -1 else if b < a then 1 else compare_unsigned as bs

/-- Function `compare_atomic_cell_for_merge(left, right)` from `database.cc`:
positive means `left` wins the merge, negative means `right` wins.
Timestamps are compared first (descending priority: larger timestamp
wins); at equal timestamps liveness breaks the tie; among live cells the
value bytes, then expiry; among dead cells the deletion times compared as
`uint64_t`. -/
def compare_atomic_cell_for_merge (left right : atomic_cell) : Int :=
  if left.timestamp ≠ right.timestamp then
    if left.timestamp > right.timestamp then 1 else -1
  else if left.is_live ≠ right.is_live then
    (if left.is_live then -1 else 1)
  else if left.is_live then
    let c := compare_unsigned left.value right.value
    if c ≠ 0 then c
    else if left.is_live_and_has_ttl ≠ right.is_live_and_has_ttl then
      (if left.is_live_and_has_ttl then 1 else -1)
    else if left.is_live_and_has_ttl ∧ left.expiry ≠ right.expiry then
      (if left.expiry < right.expiry then -1 else 1)
    else 0
  else
    if left.deletion_time ≠ right.deletion_time then
      (if toUInt64 left.deletion_time < toUInt64 right.deletion_time then -1 else 1)
    else 0

/-- A live cell with timestamp 0 and empty value. -/
def liveCell : atomic_cell :=
  { timestamp := 0, is_live := true, value := [], is_live_and_has_ttl := false,
    expiry := 0, deletion_time := 0 }

/-- A dead cell with timestamp 0. -/
def deadCell : atomic_cell :=
  { timestamp := 0, is_live := false, value := [], is_live_and_has_ttl := false,
    expiry := 0, deletion_time := 0 }

end Scylla

namespace Scylla

/-- C1 (counterexample): at equal timestamps, with the live cell on the
left and the dead cell on the right, the comparator returns `-1` — the
*dead* cell wins the merge, not the live one as the claim states.  (The
convention that a positive result means the left cell wins is fixed by
the timestamp branch: larger timestamp gives `1`, and the spec agrees the
later-timestamped cell wins.) -/
theorem compare_equal_ts_live_vs_dead_counterexample :
    liveCell.timestamp = deadCell.timestamp ∧
    liveCell.is_live = true ∧ deadCell.is_live = false ∧
    compare_atomic_cell_for_merge liveCell deadCell = -1 ∧
    ¬ 0 < compare_atomic_cell_for_merge liveCell deadCell := by
  refine ⟨rfl, rfl, rfl, by decide, by decide⟩

/-- C1 (amended): at equal timestamps, when exactly one cell is live, the
*dead* cell wins the merge: with the live cell on the left the comparator
returns `-1`, with the dead cell on the left it returns `1`. -/
theorem compare_equal_ts_dead_beats_live (l r : atomic_cell)
    (hts : l.timestamp = r.timestamp)
    (hl : l.is_live = true) (hr : r.is_live = false) :
    compare_atomic_cell_for_merge l r = -1 ∧
    compare_atomic_cell_for_merge r l = 1 := by
  constructor <;>
    simp [compare_atomic_cell_for_merge, hts, hl, hr]

/-- Witness for C1 (amended) at the concrete cells `liveCell`, `deadCell`. -/
theorem compare_equal_ts_dead_beats_live_witness :
    compare_atomic_cell_for_merge liveCell deadCell = -1 ∧
    compare_atomic_cell_for_merge deadCell liveCell = 1 :=
  compare_equal_ts_dead_beats_live liveCell deadCell rfl rfl rfl

/-- C8: at equal timestamps and equal liveness the comparator decides the
winner by: among live cells, the unsigned lexicographic comparison of the
value bytes; on equal values the cell with an expiry beats the one
without; among two expiring cells (equal values) the one with the later
expiry wins; among two dead cells the one whose encoded deletion time is
numerically larger as an unsigned 64-bit value wins. -/
theorem compare_equal_ts_equal_liveness_spec (l r : atomic_cell)
    (hts : l.timestamp = r.timestamp) (hlv : l.is_live = r.is_live) :
    (l.is_live = true → compare_unsigned l.value r.value ≠ 0 →
      compare_atomic_cell_for_merge l r = compare_unsigned l.value r.value) ∧
    (l.is_live = true → compare_unsigned l.value r.value = 0 →
      l.is_live_and_has_ttl = true → r.is_live_and_has_ttl = false →
      compare_atomic_cell_for_merge l r = 1) ∧
    (l.is_live = true → compare_unsigned l.value r.value = 0 →
      l.is_live_and_has_ttl = true → r.is_live_and_has_ttl = true →
      r.expiry < l.expiry → compare_atomic_cell_for_merge l r = 1) ∧
    (l.is_live = false → toUInt64 r.deletion_time < toUInt64 l.deletion_time →
      compare_atomic_cell_for_merge l r = 1) := by
  refine ⟨?_, ?_, ?_, ?_⟩
  · intro hl hc
    simp [compare_atomic_cell_for_merge, hts, hlv ▸ hl, hl, hc]
  · intro hl hc hlt hrt
    simp [compare_atomic_cell_for_merge, hts, hlv ▸ hl, hl, hc, hlt, hrt]
  · intro hl hc hlt hrt hexp
    have hne : l.expiry ≠ r.expiry := by
      intro h; exact absurd (h ▸ hexp) (lt_irrefl _)
    simp [compare_atomic_cell_for_merge, hts, hlv ▸ hl, hl, hc, hlt, hrt, hne,
      not_lt_of_gt hexp]
  · intro hl hdt
    have hne : l.deletion_time ≠ r.deletion_time := by
      intro h; exact absurd (h ▸ hdt) (lt_irrefl _)
    simp [compare_atomic_cell_for_merge, hts, hlv ▸ hl, hl, hne, not_lt_of_gt hdt]

/-- Witness for C8: concrete instantiations of all four tie-break cases. -/
theorem compare_equal_ts_equal_liveness_spec_witness :
    compare_atomic_cell_for_merge
      { liveCell with value := [2] } { liveCell with value := [1] } = 1 ∧
    compare_atomic_cell_for_merge
      { liveCell with is_live_and_has_ttl := true, expiry := 7 } liveCell = 1 ∧
    compare_atomic_cell_for_merge
      { liveCell with is_live_and_has_ttl := true, expiry := 7 }
      { liveCell with is_live_and_has_ttl := true, expiry := 3 } = 1 ∧
    compare_atomic_cell_for_merge
      { deadCell with deletion_time := 5 } { deadCell with deletion_time := 4 } = 1 := by
  refine ⟨?_, ?_, ?_, ?_⟩
  · have h := compare_equal_ts_equal_liveness_spec
      { liveCell with value := [2] } { liveCell with value := [1] } rfl rfl
    have := h.1 rfl (by decide)
    simpa using this
  · exact (compare_equal_ts_equal_liveness_spec
      { liveCell with is_live_and_has_ttl := true, expiry := 7 } liveCell
      rfl rfl).2.1 rfl (by decide) rfl rfl
  · exact (compare_equal_ts_equal_liveness_spec
      { liveCell with is_live_and_has_ttl := true, expiry := 7 }
      { liveCell with is_live_and_has_ttl := true, expiry := 3 }
      rfl rfl).2.2.1 rfl (by decide) rfl rfl (by decide)
  · exact (compare_equal_ts_equal_liveness_spec
      { deadCell with deletion_time := 5 } { deadCell with deletion_time := 4 }
      rfl rfl).2.2.2 rfl (by decide)

/-! ## Backlog controller (`backlog_controller::adjust`, `backlog_of_shares`)

The controller's `float` arithmetic is modelled exactly over `ℚ`. -/

/-- A configured control point `{input, output}` of the backlog controller. -/
structure control_point where
  input : ℚ
  output : ℚ
deriving DecidableEq, Repr

/-- Access `_control_points[i]` (reads are always in bounds in the code; out of
range defaults to `⟨0, 0⟩`). -/
def cpAt (cps : List control_point) (i : Nat) : control_point :=
  cps.getD i ⟨0, 0⟩

/-- The search loop `while (idx < size - 1 && p(idx)) idx++;` shared
verbatim by `adjust` and `backlog_of_shares`, starting from a given index.
The loop is bounded structurally by a fuel argument; fuel `size` always
suffices because the index starts at 1 and the loop stops at `size - 1`. -/
def search_from (n : Nat) (p : Nat → Bool) : Nat → Nat → Nat
  | idx, 0 => idx
  | idx, fuel + 1 =>
    if idx < n - 1 && p idx then search_from n p (idx + 1) fuel else idx

/-- The interpolation-interval search of `backlog_controller::adjust`:
starting from `idx = 1`, advance while `_control_points[idx].input < backlog`. -/
def interp_search (cps : List control_point) (backlog : ℚ) : Nat :=
  search_from cps.length (fun idx => decide ((cpAt cps idx).input < backlog)) 1
    cps.length

/-- The shares value computed by `backlog_controller::adjust()` (the value
it passes to `update_controller`): clamp to the last control point's
output at or beyond the last input, otherwise interpolate linearly in the
interval found by the search loop. -/
def adjust_shares (cps : List control_point) (backlog : ℚ) : ℚ :=
  if (cpAt cps (cps.length - 1)).input ≤ backlog then
    (cpAt cps (cps.length - 1)).output
  else
    (cpAt cps (interp_search cps backlog - 1)).output +
      (backlog - (cpAt cps (interp_search cps backlog - 1)).input) *
        ((cpAt cps (interp_search cps backlog)).output -
          (cpAt cps (interp_search cps backlog - 1)).output) /
        ((cpAt cps (interp_search cps backlog)).input -
          (cpAt cps (interp_search cps backlog - 1)).input)

/-- The interval search of `backlog_controller::backlog_of_shares`:
starting from `idx = 1`, advance while `_control_points[idx].output < shares`. -/
def shares_search (cps : List control_point) (shares : ℚ) : Nat :=
  search_from cps.length (fun idx => decide ((cpAt cps idx).output < shares)) 1
    cps.length

/-- Function `backlog_controller::backlog_of_shares(shares)`: the inverse linear
map `x = (y - a) / b` on the interval found by the search loop. -/
def backlog_of_shares (cps : List control_point) (shares : ℚ) : ℚ :=
  (cpAt cps (shares_search cps shares - 1)).input +
    (shares - (cpAt cps (shares_search cps shares - 1)).output) *
      ((cpAt cps (shares_search cps shares)).input -
        (cpAt cps (shares_search cps shares - 1)).input) /
      ((cpAt cps (shares_search cps shares)).output -
        (cpAt cps (shares_search cps shares - 1)).output)

/-- Control points sorted ascending by input but not by output: a
counterexample configuration for the round-trip claim. -/
def cexCps : List control_point := [⟨0, 100⟩, ⟨1, 50⟩, ⟨2, 100⟩]

/-- The search loop stops exactly at `i` when every index from the start
up to `i` passes the predicate and `i` itself fails it (or is the last
searchable index). -/
theorem search_from_eq (n : Nat) (p : Nat → Bool) (i : Nat) :
    ∀ idx fuel, idx ≤ i → i - idx ≤ fuel → i ≤ n - 1 →
    (∀ j, idx ≤ j → j < i → p j = true) →
    (i < n - 1 → p i = false) →
    search_from n p idx fuel = i := by
  intro idx fuel
  induction fuel generalizing idx with
  | zero =>
    intro h1 h2 _ _ _
    have heq : idx = i := by omega
    simp [search_from, heq]
  | succ fuel ih =>
    intro h1 h2 h3 hbelow hstop
    rcases Nat.eq_or_lt_of_le h1 with heq | hlt
    · subst heq
      by_cases hn : idx < n - 1
      · have hp := hstop hn
        simp [search_from, hp]
      · simp [search_from, hn]
    · have hp : p idx = true := hbelow idx le_rfl hlt
      have hn : idx < n - 1 := by omega
      rw [search_from, if_pos (by simp [hn, hp])]
      exact ih (idx + 1) (by omega) (by omega) h3
        (fun j hj1 hj2 => hbelow j (by omega) hj2) hstop

/-- A chain of strict per-step increases up to index `n - 1` gives
monotonicity on indices `≤ n - 1`. -/
theorem chain_mono_le (n : Nat) (f : Nat → ℚ)
    (hstep : ∀ i, i + 1 ≤ n - 1 → f i < f (i + 1)) (j : Nat) :
    ∀ k, j ≤ k → k ≤ n - 1 → f j ≤ f k := by
  intro k
  induction k with
  | zero =>
    intro h1 _
    have hj : j = 0 := Nat.le_zero.mp h1
    simp [hj]
  | succ k ih =>
    intro h1 h2
    rcases Nat.eq_or_lt_of_le h1 with heq | hlt
    · rw [heq]
    · have h3 : f j ≤ f k := ih (by omega) (by omega)
      have h4 : f k < f (k + 1) := hstep k (by omega)
      linarith

/-- C7 (counterexample): for the control points `[(0,100), (1,50), (2,100)]`,
sorted strictly ascending by input, and the interior backlog `1/2`,
`backlog_of_shares` applied to the shares computed by `adjust` returns
`3/2`, not the original backlog `1/2`: the round-trip claim fails when
the outputs are not also ascending (the model's arithmetic is exact, so
the `3/2` vs `1/2` gap is not interpolation error). -/
theorem backlog_roundtrip_counterexample :
    (cpAt cexCps 0).input < (cpAt cexCps 1).input ∧
    (cpAt cexCps 1).input < (cpAt cexCps 2).input ∧
    (cpAt cexCps 0).input < (1 : ℚ)/2 ∧
    (1 : ℚ)/2 < (cpAt cexCps (cexCps.length - 1)).input ∧
    backlog_of_shares cexCps (adjust_shares cexCps ((1 : ℚ)/2)) = 3/2 := by
  refine ⟨by norm_num [cpAt, cexCps], by norm_num [cpAt, cexCps],
    by norm_num [cpAt, cexCps], by norm_num [cpAt, cexCps], ?_⟩
  norm_num [backlog_of_shares, adjust_shares, interp_search, shares_search,
    search_from, cpAt, cexCps]

/-- The inverse linear map exactly undoes the interpolation on one
interval `[(A, C), (B, D)]` with nondegenerate endpoints. -/
theorem roundtrip_interval (A B C D b : ℚ) (hAB : A < B) (hCD : C < D) :
    A + ((C + (b - A) * (D - C) / (B - A)) - C) * (B - A) / (D - C) = b := by
  have h1 : B - A ≠ 0 := ne_of_gt (sub_pos.mpr hAB)
  have h2 : D - C ≠ 0 := ne_of_gt (sub_pos.mpr hCD)
  field_simp
  ring

/-- The interpolated value for `b` in `(A, B]` lands in `(C, D]` when the
interval is ascending on both axes. -/
theorem interp_bounds (A B C D b : ℚ) (hAB : A < B) (hCD : C < D)
    (hAb : A < b) (hbB : b ≤ B) :
    C < C + (b - A) * (D - C) / (B - A) ∧
      C + (b - A) * (D - C) / (B - A) ≤ D := by
  have hBA : (0:ℚ) < B - A := sub_pos.mpr hAB
  have hDC : (0:ℚ) < D - C := sub_pos.mpr hCD
  constructor
  · have h : 0 < (b - A) * (D - C) / (B - A) :=
      div_pos (mul_pos (by linarith) hDC) hBA
    linarith
  · have h1 : (b - A) * (D - C) ≤ (B - A) * (D - C) := by nlinarith
    have h2 : (b - A) * (D - C) / (B - A) ≤ (B - A) * (D - C) / (B - A) :=
      (div_le_div_iff_of_pos_right hBA).mpr h1
    have h3 : (B - A) * (D - C) / (B - A) = D - C :=
      mul_div_cancel_left₀ _ (ne_of_gt hBA)
    linarith

/-- C7 (amended): for at least two control points sorted strictly
ascending in *both* input and output, and any backlog `b` strictly
between the first and last control-point inputs, `backlog_of_shares`
exactly inverts the interpolation computed by `adjust`:
`backlog_of_shares (adjust_shares b) = b` (exact over `ℚ`; the `float`
code realizes this up to rounding). -/
theorem backlog_of_shares_roundtrip (cps : List control_point) (b : ℚ)
    (hn : 2 ≤ cps.length)
    (hin : ∀ i, i + 1 ≤ cps.length - 1 →
      (cpAt cps i).input < (cpAt cps (i + 1)).input)
    (hout : ∀ i, i + 1 ≤ cps.length - 1 →
      (cpAt cps i).output < (cpAt cps (i + 1)).output)
    (hb1 : (cpAt cps 0).input < b)
    (hb2 : b < (cpAt cps (cps.length - 1)).input) :
    backlog_of_shares cps (adjust_shares cps b) = b := by
  have hQex : ∃ k, b ≤ (cpAt cps (1 + k)).input := by
    refine ⟨cps.length - 2, ?_⟩
    rw [show 1 + (cps.length - 2) = cps.length - 1 from by omega]
    exact le_of_lt hb2
  have hfind : Nat.find hQex ≤ cps.length - 2 := by
    apply Nat.find_min'
    rw [show 1 + (cps.length - 2) = cps.length - 1 from by omega]
    exact le_of_lt hb2
  set i := 1 + Nat.find hQex with hi_def
  have hbB : b ≤ (cpAt cps i).input := Nat.find_spec hQex
  have hmin : ∀ m, m < Nat.find hQex → ¬ b ≤ (cpAt cps (1 + m)).input :=
    fun m hm => Nat.find_min hQex hm
  have hi1 : 1 ≤ i := by omega
  have hile : i ≤ cps.length - 1 := by omega
  have hinterp : interp_search cps b = i := by
    simp only [interp_search]
    apply search_from_eq cps.length _ i 1 cps.length (by omega) (by omega) hile
    · intro j hj1 hj2
      have hlt := hmin (j - 1) (by omega)
      rw [show 1 + (j - 1) = j from by omega] at hlt
      simp only [decide_eq_true_eq]
      exact not_le.mp hlt
    · intro _
      simp only [decide_eq_false_iff_not, not_lt]
      exact hbB
  have hAB : (cpAt cps (i - 1)).input < (cpAt cps i).input := by
    have h := hin (i - 1) (by omega)
    rwa [show i - 1 + 1 = i from by omega] at h
  have hCD : (cpAt cps (i - 1)).output < (cpAt cps i).output := by
    have h := hout (i - 1) (by omega)
    rwa [show i - 1 + 1 = i from by omega] at h
  have hAb : (cpAt cps (i - 1)).input < b := by
    by_cases hieq : i = 1
    · rw [hieq]
      simpa using hb1
    · have hlt := hmin (i - 2) (by omega)
      rw [show 1 + (i - 2) = i - 1 from by omega] at hlt
      exact not_le.mp hlt
  have hadj : adjust_shares cps b =
      (cpAt cps (i - 1)).output +
        (b - (cpAt cps (i - 1)).input) *
          ((cpAt cps i).output - (cpAt cps (i - 1)).output) /
          ((cpAt cps i).input - (cpAt cps (i - 1)).input) := by
    rw [adjust_shares, if_neg (not_le.mpr hb2), hinterp]
  obtain ⟨hCs, hsD⟩ := interp_bounds
    (cpAt cps (i - 1)).input (cpAt cps i).input
    (cpAt cps (i - 1)).output (cpAt cps i).output b hAB hCD hAb hbB
  have hshares : shares_search cps (adjust_shares cps b) = i := by
    rw [hadj]
    simp only [shares_search]
    apply search_from_eq cps.length _ i 1 cps.length (by omega) (by omega) hile
    · intro j hj1 hj2
      have hjC : (cpAt cps j).output ≤ (cpAt cps (i - 1)).output := by
        have h := chain_mono_le cps.length (fun t => (cpAt cps t).output) hout
          j (i - 1) (by omega) (by omega)
        simpa using h
      simp only [decide_eq_true_eq]
      exact lt_of_le_of_lt hjC hCs
    · intro _
      simp only [decide_eq_false_iff_not, not_lt]
      exact hsD
  rw [backlog_of_shares, hshares, hadj]
  exact roundtrip_interval (cpAt cps (i - 1)).input (cpAt cps i).input
    (cpAt cps (i - 1)).output (cpAt cps i).output b hAB hCD

/-- Ascending control points for the round-trip witness. -/
def rtCps : List control_point := [⟨0, 0⟩, ⟨1, 10⟩, ⟨2, 100⟩]

/-- Witness for C7 (amended): the round trip at the concrete ascending
control points `[(0,0), (1,10), (2,100)]` and interior backlog `1/2`. -/
theorem backlog_of_shares_roundtrip_witness :
    backlog_of_shares rtCps (adjust_shares rtCps ((1 : ℚ)/2)) = 1/2 := by
  apply backlog_of_shares_roundtrip rtCps ((1 : ℚ)/2)
  · norm_num [rtCps]
  · intro i hi
    simp only [rtCps, List.length_cons, List.length_nil] at hi
    have hle : i ≤ 1 := by omega
    interval_cases i <;> norm_num [cpAt, rtCps]
  · intro i hi
    simp only [rtCps, List.length_cons, List.length_nil] at hi
    have hle : i ≤ 1 := by omega
    interval_cases i <;> norm_num [cpAt, rtCps]
  · norm_num [cpAt, rtCps]
  · norm_num [cpAt, rtCps]

/-! ## Durability pipeline

The future-returning pipeline of `database.cc` is modelled functionally:
the outcome of each collaborator call — the commitlog's `add_entry`, the
resource accountant's `run_when_memory_available` admission, the
memtable's own `apply` body, `push_view_replica_updates`,
`lock_counter_cells` — is an explicit `Except` argument, the table's
visible memtable content is threaded as a `List` of mutations, and every
pipeline function also returns the ordered trace of pipeline events it
performed.  A collaborator failure leaves the memtable content untouched
(in particular a mutation whose `cf.apply` throws, e.g. the
reorder-vs-truncate check, is not inserted). -/

/-- A mutation, identified abstractly. -/
structure Mutation where
  id : Nat
deriving DecidableEq, Repr

/-- The observable steps of the write pipeline: base-row view lock taken,
counter-cell locks taken, commitlog `add_entry` invoked, the in-memory
apply body run. -/
inductive Event where
  | view_lock
  | counter_lock
  | commitlog_append
  | mem_apply
deriving DecidableEq, Repr

/-- A replay-position handle returned by a successful `add_entry`. -/
structure RpHandle where
  pos : Nat
deriving DecidableEq, Repr

/-- Pipeline outcome: result, memtable content after the call, event trace. -/
abbrev PipelineOut := Except Err Unit × List Mutation × List Event

/-- Overload `database::apply_in_memory(const mutation&, column_family&, rp_handle, timeout)`
(the overload without a try/catch): `run_when_memory_available` runs the
apply body once memory is admitted (or fails with the admission error,
e.g. a timeout, without running it); the body `cf.apply(m, h)` either
inserts the mutation or throws, and its exception fails the future. -/
def apply_in_memory_mut (admission : Except Err Unit) (cfApply : Except Err Unit)
    (m : Mutation) (st : List Mutation) : PipelineOut :=
  match admission with
  | .error e => (.error e, st, [])
  | .ok () =>
    match cfApply with
    | .ok () => (.ok (), m :: st, [.mem_apply])
    | .error e => (.error e, st, [.mem_apply])

/-- Overload `database::apply_in_memory(const frozen_mutation&, schema_ptr, rp_handle, timeout)`:
like the overload above, but the admitted body re-looks-up the table and
catches `no_such_column_family`, only logging it. -/
def apply_in_memory_frozen (admission : Except Err Unit) (cf_exists : Bool)
    (cfApply : Except Err Unit) (m : Mutation) (st : List Mutation) : PipelineOut :=
  match admission with
  | .error e => (.error e, st, [])
  | .ok () =>
    let body : Except Err (List Mutation) :=
      if cf_exists then
        match cfApply with
        | .ok () => .ok (m :: st)
        | .error e => .error e
      else .error .no_such_column_family
    match body with
    | .ok st' => (.ok (), st', [.mem_apply])
    | .error .no_such_column_family => (.ok (), st, [.mem_apply])
    | .error e => (.error e, st, [.mem_apply])

/-- Function `maybe_handle_reorder`: rethrows the exception, swallowing only
`mutation_reordered_with_truncate_exception` (logged at debug level). -/
def maybe_handle_reorder (exp : Err) : Except Err Unit :=
  match exp with
  | .mutation_reordered_with_truncate => .ok ()
  | e => .error e

/-- Combinator `future::handle_exception(h)`: a failed future's exception is passed
to the handler, a successful one passes through. -/
def handle_exception (r : Except Err Unit) (h : Err → Except Err Unit) :
    Except Err Unit :=
  match r with
  | .ok a => .ok a
  | .error e => h e

/-- Overload `database::apply_with_commitlog(column_family&, const mutation&, timeout)`:
with a commitlog, `add_entry` first; only on its success does `.then`
run `apply_in_memory`, whose failure is filtered by `maybe_handle_reorder`;
without a commitlog, `apply_in_memory` directly with an empty handle. -/
def apply_with_commitlog_mut (hasCl : Bool) (addEntry : Except Err RpHandle)
    (admission : Except Err Unit) (cfApply : Except Err Unit)
    (m : Mutation) (st : List Mutation) : PipelineOut :=
  if hasCl then
    match addEntry with
    | .error e => (.error e, st, [.commitlog_append])
    | .ok _h =>
      match apply_in_memory_mut admission cfApply m st with
      | (r, st', tr) => (handle_exception r maybe_handle_reorder, st',
          .commitlog_append :: tr)
  else apply_in_memory_mut admission cfApply m st

/-- Overload `database::apply_with_commitlog(schema_ptr, column_family&, utils::UUID,
const frozen_mutation&, timeout)`: same shape over the frozen-mutation
`apply_in_memory` overload. -/
def apply_with_commitlog_frozen (hasCl : Bool) (addEntry : Except Err RpHandle)
    (admission : Except Err Unit) (cf_exists : Bool) (cfApply : Except Err Unit)
    (m : Mutation) (st : List Mutation) : PipelineOut :=
  if hasCl then
    match addEntry with
    | .error e => (.error e, st, [.commitlog_append])
    | .ok _h =>
      match apply_in_memory_frozen admission cf_exists cfApply m st with
      | (r, st', tr) => (handle_exception r maybe_handle_reorder, st',
          .commitlog_append :: tr)
  else apply_in_memory_frozen admission cf_exists cfApply m st

/-- Function `database::do_apply`: look the table up, reject a non-synced schema
with the stale-schema error, then — for a table without views — go
straight to `apply_with_commitlog`; for a table with views, acquire the
base-row lock via `push_view_replica_updates` and hold it across
`apply_with_commitlog`. -/
def do_apply (cf_exists : Bool) (synced : Bool) (has_views : Bool)
    (viewLock : Except Err Unit) (hasCl : Bool) (addEntry : Except Err RpHandle)
    (admission : Except Err Unit) (cf_exists_at_apply : Bool)
    (cfApply : Except Err Unit) (m : Mutation) (st : List Mutation) : PipelineOut :=
  if ¬ cf_exists then (.error .no_such_column_family, st, [])
  else if ¬ synced then (.error .stale_schema, st, [])
  else if ¬ has_views then
    apply_with_commitlog_frozen hasCl addEntry admission cf_exists_at_apply cfApply m st
  else
    match viewLock with
    | .error e => (.error e, st, [])
    | .ok () =>
      match apply_with_commitlog_frozen hasCl addEntry admission cf_exists_at_apply
          cfApply m st with
      | (r, st', tr) => (r, st', .view_lock :: tr)

/-- Function `database::do_apply_counter_update`: acquire the ordered counter-cell
locks, read the current cell state and transform the deltas to shards
(collaborator steps with no effect on the memtable content), then apply
through `apply_with_commitlog`. -/
def do_apply_counter_update (counterLock : Except Err Unit) (hasCl : Bool)
    (addEntry : Except Err RpHandle) (admission : Except Err Unit)
    (cfApply : Except Err Unit) (m : Mutation) (st : List Mutation) : PipelineOut :=
  match counterLock with
  | .error e => (.error e, st, [])
  | .ok () =>
    match apply_with_commitlog_mut hasCl addEntry admission cfApply m st with
    | (r, st', tr) => (r, st', .counter_lock :: tr)

/-- Function `database::apply_counter_update`: reject a non-synced schema with the
stale-schema error before the table lookup and before
`do_apply_counter_update`. -/
def apply_counter_update (synced : Bool) (cf_exists : Bool)
    (counterLock : Except Err Unit) (hasCl : Bool) (addEntry : Except Err RpHandle)
    (admission : Except Err Unit) (cfApply : Except Err Unit)
    (m : Mutation) (st : List Mutation) : PipelineOut :=
  if ¬ synced then (.error .stale_schema, st, [])
  else if ¬ cf_exists then (.error .no_such_column_family, st, [])
  else do_apply_counter_update counterLock hasCl addEntry admission cfApply m st

/-- Function `database::apply_streaming_mutation`: reject a non-synced schema with
the stale-schema error, otherwise run the streaming apply body under the
streaming pool's memory admission (the body's table lookup is not
guarded by a catch here). -/
def apply_streaming_mutation (synced : Bool) (admission : Except Err Unit)
    (cf_exists : Bool) (m : Mutation) (st : List Mutation) : PipelineOut :=
  if ¬ synced then (.error .stale_schema, st, [])
  else
    match admission with
    | .error e => (.error e, st, [])
    | .ok () =>
      if ¬ cf_exists then (.error .no_such_column_family, st, [])
      else (.ok (), m :: st, [.mem_apply])

/-- C2: on a table with a commitlog, a failed `add_entry` aborts the apply
with that same error before any in-memory application — the memtable
content is unchanged and the only pipeline event is the append attempt —
and an in-memory apply event can occur at all only when `add_entry`
returned a handle: durability strictly precedes visibility. -/
theorem commitlog_failure_aborts_before_memory
    (admission cfApply : Except Err Unit) (m : Mutation) (st : List Mutation)
    (e : Err) :
    apply_with_commitlog_frozen true (.error e) admission true cfApply m st =
      (.error e, st, [Event.commitlog_append]) ∧
    apply_with_commitlog_mut true (.error e) admission cfApply m st =
      (.error e, st, [Event.commitlog_append]) ∧
    (∀ (addEntry : Except Err RpHandle) (ce : Bool),
      Event.mem_apply ∈
        (apply_with_commitlog_frozen true addEntry admission ce cfApply m st).2.2 →
      ∃ h, addEntry = .ok h) := by
  refine ⟨rfl, rfl, ?_⟩
  intro addEntry ce hmem
  cases addEntry with
  | ok h => exact ⟨h, rfl⟩
  | error e' => simp [apply_with_commitlog_frozen] at hmem

/-- Witness for C2 at concrete collaborator outcomes: a timed-out append
aborts with the memtable untouched, and the in-memory event in a
successful run certifies the append had succeeded. -/
theorem commitlog_failure_aborts_before_memory_witness :
    apply_with_commitlog_frozen true (.error .timed_out) (.ok ()) true (.ok ())
        ⟨1⟩ [] = (.error .timed_out, [], [Event.commitlog_append]) ∧
    ∃ h : RpHandle, (Except.ok ⟨7⟩ : Except Err RpHandle) = .ok h := by
  have h := commitlog_failure_aborts_before_memory (.ok ()) (.ok ()) ⟨1⟩ []
    Err.timed_out
  exact ⟨h.1, h.2.2 (.ok ⟨7⟩) true (by decide)⟩

/-- C5: a mutation with a non-synced schema fails every entry point
(`do_apply`, `apply_counter_update`, `apply_streaming_mutation`) with the
stale-schema error, and it fails before any lock acquisition, commitlog
append, or in-memory application: for every outcome of every collaborator
the memtable is unchanged and the event trace is empty. -/
theorem stale_schema_rejected_first (has_views : Bool)
    (viewLock counterLock admission cfApply : Except Err Unit)
    (hasCl : Bool) (addEntry : Except Err RpHandle) (cf_exists : Bool)
    (m : Mutation) (st : List Mutation) :
    do_apply true false has_views viewLock hasCl addEntry admission cf_exists
        cfApply m st = (.error .stale_schema, st, []) ∧
    apply_counter_update false cf_exists counterLock hasCl addEntry admission
        cfApply m st = (.error .stale_schema, st, []) ∧
    apply_streaming_mutation false admission cf_exists m st =
      (.error .stale_schema, st, []) := by
  refine ⟨?_, rfl, rfl⟩
  simp [do_apply]

/-- C6: once the commitlog append succeeded, an in-memory application that
raises `mutation_reordered_with_truncate_exception` is swallowed by
`maybe_handle_reorder`: the caller sees success and the write is simply
dropped (the memtable is unchanged); every other in-memory failure
propagates to the caller unchanged. -/
theorem reorder_with_truncate_swallowed (h : RpHandle) (m : Mutation)
    (st : List Mutation) :
    apply_with_commitlog_mut true (.ok h) (.ok ())
        (.error .mutation_reordered_with_truncate) m st =
      (.ok (), st, [Event.commitlog_append, Event.mem_apply]) ∧
    (∀ e : Err, e ≠ .mutation_reordered_with_truncate →
      apply_with_commitlog_mut true (.ok h) (.ok ()) (.error e) m st =
        (.error e, st, [Event.commitlog_append, Event.mem_apply])) := by
  refine ⟨rfl, ?_⟩
  intro e he
  cases e <;> simp_all [apply_with_commitlog_mut, apply_in_memory_mut,
    handle_exception, maybe_handle_reorder]

/-- Witness for C6: a reordered write is dropped silently, a timed-out
in-memory apply is surfaced. -/
theorem reorder_with_truncate_swallowed_witness :
    apply_with_commitlog_mut true (.ok ⟨3⟩) (.ok ())
        (.error .mutation_reordered_with_truncate) ⟨1⟩ [] =
      (.ok (), [], [Event.commitlog_append, Event.mem_apply]) ∧
    apply_with_commitlog_mut true (.ok ⟨3⟩) (.ok ()) (.error .timed_out) ⟨1⟩ [] =
      (.error .timed_out, [], [Event.commitlog_append, Event.mem_apply]) := by
  have h := reorder_with_truncate_swallowed ⟨3⟩ ⟨1⟩ []
  exact ⟨h.1, h.2 .timed_out (by decide)⟩

/-- C10: a frozen-mutation apply admitted by the memory accountant whose
table was dropped before the admitted body ran completes successfully
without applying the mutation: the `no_such_column_family` thrown by the
lookup inside the body is caught and only logged, never propagated. -/
theorem dropped_table_apply_in_memory_benign (cfApply : Except Err Unit)
    (m : Mutation) (st : List Mutation) :
    apply_in_memory_frozen (.ok ()) false cfApply m st =
      (.ok (), st, [Event.mem_apply]) := rfl

/-! ## Flush-request coalescing (`memtable_list::request_flush`)

Shards are single-threaded and cooperatively scheduled, so the body of
`request_flush()` up to its `return` is one atomic step; `n` concurrent
callers interleave as `n` consecutive executions of that step.  The
per-table coalescing state is made explicit. -/

/-- What a `request_flush()` caller holds on return: an immediately ready
future (nothing to flush), the flush chain of the caller that opened the
coalescing window, or the engaged promise's shared future. -/
inductive RFResult where
  | ready
  | chain
  | shared
deriving DecidableEq, Repr

/-- Per-`memtable_list` coalescing state: whether `_flush_coalescing` is
engaged, how many underlying `flush_one` operations have been started,
and how many callers hold the current promise's shared future. -/
structure MtlState where
  coalescing : Bool
  started : Nat
  waiters : Nat
deriving DecidableEq, Repr

/-- One atomic execution of the body of `memtable_list::request_flush()`:
nothing to flush returns a ready future; an un-engaged `_flush_coalescing`
is engaged (and the chain that will acquire the permit and flush is set
up); an engaged one hands the caller `get_shared_future()` and starts
nothing. -/
def request_flush (isEmpty mayFlush : Bool) (st : MtlState) :
    RFResult × MtlState :=
  if isEmpty || !mayFlush then (.ready, st)
  else if !st.coalescing then (.chain, { st with coalescing := true })
  else (.shared, { st with waiters := st.waiters + 1 })

/-- The continuation run once the flush permit arrives: the engaged
promise is moved out, `_flush_coalescing` is reset, and the single
underlying `flush_one` starts. -/
def flush_permit_continuation (st : MtlState) : MtlState :=
  { st with coalescing := false, started := st.started + 1 }

/-- Function `dirty_memory_manager::flush_one`: logs a failed seal and re-raises
the same exception; a successful seal passes through. -/
def flush_one (sealResult : Except Err Unit) : Except Err Unit :=
  match sealResult with
  | .ok () => .ok ()
  | .error e => .error e

/-- The `then_wrapped` continuation settling the coalesced promise:
`set_exception` with the flush's exception on failure, `set_value` on
success — the shared future's value is exactly the flush's outcome. -/
def coalesced_outcome (sealResult : Except Err Unit) : Except Err Unit :=
  match flush_one sealResult with
  | .ok () => .ok ()
  | .error e => .error e

/-- Iterated runs: `n` consecutive `request_flush()` calls on a non-empty, flushable
memtable list. -/
def request_flush_n : Nat → MtlState → List RFResult × MtlState
  | 0, st => ([], st)
  | n + 1, st =>
    let p := request_flush false true st
    let q := request_flush_n n p.2
    (p.1 :: q.1, q.2)

/-- C3: while one flush request is coalescing, `n` further concurrent
`request_flush()` calls all join the engaged promise's shared future: no
new underlying flush starts, the window stays open, the `n` callers
become waiters of the same promise, the single permit continuation then
starts exactly one `flush_one`, and every waiter's shared future resolves
with precisely that flush's outcome (its exception on failure, success
otherwise). -/
theorem request_flush_coalesces (n : Nat) (st : MtlState)
    (hc : st.coalescing = true) :
    (request_flush_n n st).1 = List.replicate n RFResult.shared ∧
    (request_flush_n n st).2.started = st.started ∧
    (request_flush_n n st).2.coalescing = true ∧
    (request_flush_n n st).2.waiters = st.waiters + n ∧
    (flush_permit_continuation (request_flush_n n st).2).started =
      st.started + 1 ∧
    (∀ sealResult : Except Err Unit, coalesced_outcome sealResult = sealResult) := by
  have hout : ∀ sealResult : Except Err Unit,
      coalesced_outcome sealResult = sealResult := by
    intro s
    cases s with
    | ok a => cases a; rfl
    | error e => rfl
  induction n generalizing st with
  | zero =>
    refine ⟨rfl, rfl, hc, rfl, ?_, hout⟩
    simp [request_flush_n, flush_permit_continuation]
  | succ n ih =>
    have hstep : request_flush false true st =
        (RFResult.shared, { st with waiters := st.waiters + 1 }) := by
      simp [request_flush, hc]
    obtain ⟨h1, h2, h3, h4, h5, _⟩ := ih { st with waiters := st.waiters + 1 } hc
    refine ⟨?_, ?_, ?_, ?_, ?_, hout⟩
    · simp [request_flush_n, hstep, h1, List.replicate_succ]
    · simp [request_flush_n, hstep, h2]
    · simp [request_flush_n, hstep, h3]
    · simp [request_flush_n, hstep, h4]
      omega
    · simp [request_flush_n, hstep, h5]

/-- The coalescing window for the witness: one flush request pending, no
flush started yet, no waiters yet. -/
def coalescingState : MtlState := { coalescing := true, started := 0, waiters := 0 }

/-- Witness for C3: three callers arriving during an open coalescing
window all share the single pending flush. -/
theorem request_flush_coalesces_witness :
    (request_flush_n 3 coalescingState).1 = List.replicate 3 RFResult.shared ∧
    (request_flush_n 3 coalescingState).2.started = 0 ∧
    (request_flush_n 3 coalescingState).2.coalescing = true ∧
    (request_flush_n 3 coalescingState).2.waiters = 0 + 3 ∧
    (flush_permit_continuation (request_flush_n 3 coalescingState).2).started =
      0 + 1 ∧
    (∀ sealResult : Except Err Unit, coalesced_outcome sealResult = sealResult) :=
  request_flush_coalesces 3 coalescingState rfl

/-! ## Flush coordinator victim selection (`flush_when_needed`) -/

/-- A memtable's region in the virtual dirty-memory pool: owning table,
tracked virtual footprint in bytes, and whether the memtable is empty. -/
structure Region where
  table : Nat
  footprint : Nat
  is_empty : Bool
deriving DecidableEq, Repr

/-- Modelled from the spec: `logalloc::region_group::get_largest_region`
(code outside this file; §4.4: pick the memtable with the largest
virtual footprint among all tables sharing the pool) returns the
region with the largest footprint of the pool. -/
def get_largest_region : List Region → Option Region
  | [] => none
  | r :: rs =>
    match get_largest_region rs with
    | none => some r
    | some r' => if r.footprint < r'.footprint then some r' else some r

/-- What one pass of the coordinator loop decides to do. -/
inductive FlushAction where
  | yield
  | backoff
  | flush (victim : Nat)
deriving DecidableEq, Repr

/-- The body of `dirty_memory_manager::flush_when_needed` after the flush
permit is acquired: pending explicit flushes preempt the pass; abated
pressure or shutdown ends the pass; otherwise the candidate is the
largest region of the virtual pool — an empty candidate memtable backs
off (sleep), otherwise `flush_one` starts on the candidate's memtable
list. -/
def flush_when_needed_step (shutdown : Bool) (explicit_waiters : Nat)
    (pressure : Bool) (regions : List Region) : FlushAction :=
  if explicit_waiters ≠ 0 then .yield
  else if ¬ pressure ∨ shutdown then .yield
  else
    match get_largest_region regions with
    | none => .yield
    | some victim => if victim.is_empty then .backoff else .flush victim.table

/-- A nonempty pool always has a largest region. -/
theorem get_largest_region_isSome (r : Region) (rs : List Region) :
    ∃ w, get_largest_region (r :: rs) = some w := by
  rw [get_largest_region]
  cases get_largest_region rs with
  | none => exact ⟨r, rfl⟩
  | some w =>
    by_cases hf : r.footprint < w.footprint
    · refine ⟨w, ?_⟩
      show (if r.footprint < w.footprint then some w else some r) = some w
      rw [if_pos hf]
    · refine ⟨r, ?_⟩
      show (if r.footprint < w.footprint then some w else some r) = some r
      rw [if_neg hf]

/-- Lemma: `get_largest_region` returns a member of the pool of maximal footprint. -/
theorem get_largest_region_max (regions : List Region) (v : Region)
    (hv : get_largest_region regions = some v) :
    v ∈ regions ∧ ∀ r ∈ regions, r.footprint ≤ v.footprint := by
  induction regions generalizing v with
  | nil => simp [get_largest_region] at hv
  | cons r rs ih =>
    rw [get_largest_region] at hv
    revert hv
    cases hrec : get_largest_region rs with
    | none =>
      intro hv
      simp only [Option.some.injEq] at hv
      subst hv
      cases rs with
      | nil => simp
      | cons a as =>
        obtain ⟨w, hw⟩ := get_largest_region_isSome a as
        rw [hw] at hrec
        exact absurd hrec (by simp)
    | some w =>
      intro hv
      have hv' : (if r.footprint < w.footprint then some w else some r) = some v := hv
      obtain ⟨hmem, hmax⟩ := ih w hrec
      by_cases hf : r.footprint < w.footprint
      · rw [if_pos hf] at hv'
        simp only [Option.some.injEq] at hv'
        subst hv'
        refine ⟨List.mem_cons_of_mem _ hmem, ?_⟩
        intro x hx
        rcases List.mem_cons.mp hx with hx | hx
        · subst hx
          exact le_of_lt hf
        · exact hmax x hx
      · rw [if_neg hf] at hv'
        simp only [Option.some.injEq] at hv'
        subst hv'
        refine ⟨List.mem_cons_self _ _, ?_⟩
        intro x hx
        rcases List.mem_cons.mp hx with hx | hx
        · subst hx
          exact le_rfl
        · exact le_trans (hmax x hx) (not_lt.mp hf)

/-- The three-table scenario of the claim: virtual footprints of 10MB,
50MB and 5MB. -/
def scenarioRegions : List Region :=
  [⟨1, 10 * 1048576, false⟩, ⟨2, 50 * 1048576, false⟩, ⟨3, 5 * 1048576, false⟩]

/-- C4: under implicit pressure (no explicit waiters, pressure on, not
shutting down), when the coordinator pass starts a flush it flushes a
memtable whose virtual footprint is maximal in the pool; and in the
three-table scenario with footprints {10MB, 50MB, 5MB} it selects the
50MB table. -/
theorem flush_victim_is_largest (regions : List Region) (v : Nat) :
    (flush_when_needed_step false 0 true regions = .flush v →
      ∃ victim ∈ regions, victim.table = v ∧
        ∀ r ∈ regions, r.footprint ≤ victim.footprint) ∧
    flush_when_needed_step false 0 true scenarioRegions = .flush 2 := by
  constructor
  · intro hsel
    rw [flush_when_needed_step, if_neg (by simp), if_neg (by simp)] at hsel
    revert hsel
    cases hv : get_largest_region regions with
    | none =>
      intro hsel
      simp at hsel
    | some victim =>
      intro hsel
      have hsel' : (if victim.is_empty = true then FlushAction.backoff
          else FlushAction.flush victim.table) = FlushAction.flush v := hsel
      obtain ⟨hmem, hmax⟩ := get_largest_region_max regions victim hv
      by_cases he : victim.is_empty
      · rw [if_pos he] at hsel'
        simp at hsel'
      · rw [if_neg he] at hsel'
        injection hsel' with h
        exact ⟨victim, hmem, h, hmax⟩
  · decide

/-- Witness for C4: in the {10MB, 50MB, 5MB} scenario the selected victim
is table 2, whose 50MB footprint is maximal. -/
theorem flush_victim_is_largest_witness :
    (∃ victim ∈ scenarioRegions, victim.table = 2 ∧
      ∀ r ∈ scenarioRegions, r.footprint ≤ victim.footprint) ∧
    flush_when_needed_step false 0 true scenarioRegions = .flush 2 := by
  have h := flush_victim_is_largest scenarioRegions 2
  exact ⟨h.1 h.2, h.2⟩

/-! ## Table directory (`database::add_column_family`) -/

/-- The two directory maps of `database`: `_column_families`
(UUID → table instance, here a handle) and `_ks_cf_to_uuid`
((keyspace name, table name) → UUID). -/
structure TableDir where
  column_families : List (Nat × Nat)
  ks_cf_to_uuid : List ((String × String) × Nat)
deriving DecidableEq, Repr

/-- Mutual consistency of the two maps: every name entry points at a
registered UUID, and every registered UUID is reachable from some name
entry. -/
def TableDir.consistentB (st : TableDir) : Bool :=
  st.ks_cf_to_uuid.all (fun p => st.column_families.any (fun q => q.1 == p.2)) &&
  st.column_families.all (fun q => st.ks_cf_to_uuid.any (fun p => p.2 == q.1))

/-- Function `database::add_column_family`: after constructing the table instance,
a duplicate UUID or duplicate (keyspace, table) name throws
`std::invalid_argument` — both checks precede both insertions — otherwise
both maps are extended; for a view schema, the base table is then looked
up (`find_column_family` throws `no_such_column_family` when the base is
gone, after the two insertions). -/
def add_column_family (uuid : Nat) (ks_name cf_name : String) (isView : Bool)
    (base_id : Nat) (cf_handle : Nat) (st : TableDir) :
    Except Err Unit × TableDir :=
  if st.column_families.any (fun q => q.1 == uuid) then
    (.error .invalid_argument, st)
  else if st.ks_cf_to_uuid.any (fun p => p.1 == (ks_name, cf_name)) then
    (.error .invalid_argument, st)
  else
    let st' : TableDir :=
      { column_families := (uuid, cf_handle) :: st.column_families,
        ks_cf_to_uuid := ((ks_name, cf_name), uuid) :: st.ks_cf_to_uuid }
    if isView && !(st'.column_families.any (fun q => q.1 == base_id)) then
      (.error .no_such_column_family, st')
    else (.ok (), st')

/-- C9: registering a schema whose UUID or (keyspace, table) name is
already present fails with `invalid_argument` and leaves both directory
maps unmodified, and every `add_column_family` call — successful or
failed — preserves the mutual consistency of the UUID→table and
name→UUID maps. -/
theorem add_column_family_duplicate_rejected (uuid : Nat)
    (ks_name cf_name : String) (isView : Bool) (base_id cf_handle : Nat)
    (st : TableDir) :
    ((st.column_families.any (fun q => q.1 == uuid) = true ∨
      st.ks_cf_to_uuid.any (fun p => p.1 == (ks_name, cf_name)) = true) →
      add_column_family uuid ks_name cf_name isView base_id cf_handle st =
        (.error .invalid_argument, st)) ∧
    (st.consistentB = true →
      (add_column_family uuid ks_name cf_name isView base_id cf_handle st).2.consistentB
        = true) := by
  constructor
  · intro hdup
    by_cases h1 : st.column_families.any (fun q => q.1 == uuid) = true
    · simp [add_column_family, h1]
    · rcases hdup with hdup | hdup
      · exact absurd hdup h1
      · simp [add_column_family, h1, hdup]
  · intro hcons
    by_cases h1 : st.column_families.any (fun q => q.1 == uuid) = true
    · simpa [add_column_family, h1] using hcons
    · by_cases h2 : st.ks_cf_to_uuid.any (fun p => p.1 == (ks_name, cf_name)) = true
      · simpa [add_column_family, h1, h2] using hcons
      · have hgoal : (TableDir.mk ((uuid, cf_handle) :: st.column_families)
            (((ks_name, cf_name), uuid) :: st.ks_cf_to_uuid)).consistentB = true := by
          simp only [TableDir.consistentB, Bool.and_eq_true, List.all_eq_true,
            List.any_eq_true] at hcons ⊢
          obtain ⟨hc1, hc2⟩ := hcons
          constructor
          · intro p hp
            rcases List.mem_cons.mp hp with hp | hp
            · subst hp
              exact ⟨(uuid, cf_handle), List.mem_cons_self _ _, by simp⟩
            · obtain ⟨q, hq, hqe⟩ := hc1 p hp
              exact ⟨q, List.mem_cons_of_mem _ hq, hqe⟩
          · intro q hq
            rcases List.mem_cons.mp hq with hq | hq
            · subst hq
              exact ⟨((ks_name, cf_name), uuid), List.mem_cons_self _ _, by simp⟩
            · obtain ⟨p, hp, hpe⟩ := hc2 q hq
              exact ⟨p, List.mem_cons_of_mem _ hp, hpe⟩
        simp only [add_column_family, h1, h2, if_false, Bool.false_eq_true]
        split <;> exact hgoal


/-- A one-table directory for the C9 witness. -/
def dirEx : TableDir :=
  { column_families := [(1, 100)], ks_cf_to_uuid := [(("ks", "t1"), 1)] }

/-- Witness for C9: re-registering UUID 1 is rejected with the directory
untouched, and a fresh registration preserves consistency. -/
theorem add_column_family_duplicate_rejected_witness :
    add_column_family 1 "ks" "t2" false 0 200 dirEx =
      (.error .invalid_argument, dirEx) ∧
    (add_column_family 2 "ks" "t2" false 0 200 dirEx).2.consistentB = true := by
  have h1 := add_column_family_duplicate_rejected 1 "ks" "t2" false 0 200 dirEx
  have h2 := add_column_family_duplicate_rejected 2 "ks" "t2" false 0 200 dirEx
  exact ⟨h1.1 (Or.inl (by decide)), h2.2 (by decide)⟩

end Scylla
